import Mathlib

/-!
Shallow embedding of the collections-dashboard data pipeline
(`src/app.py` and `src/dashboard.py`).

Strings are modelled by Lean `String` (a packed `List Char`); pandas/python
numeric values by `Rat`; a CSV cell that may hold a number, a string, or be
missing (`NaN`) by the inductive type `Cell`; pandas `NaN` results of
`pd.to_numeric(..., errors="coerce")` by `Option Rat` (`none` = `NaN`).
Core `String` order does not reduce in the kernel, so lexicographic
comparison is implemented directly on the character lists (`strLeB`),
matching Python's code-point string ordering used by pandas when it sorts
group keys.
-/

/-! ### String helpers (Python `str.strip`, `str.lower`, `str.title`,
`str.replace(",", "")`, substring and startswith tests) -/

/-- Python `str.strip()`: drop leading and trailing whitespace. -/
def pyStrip (s : String) : String :=
  ⟨((s.toList.dropWhile Char.isWhitespace).reverse.dropWhile Char.isWhitespace).reverse⟩

/-- Python `str.lower()` (ASCII part, which is all the source uses). -/
def lowerStr (s : String) : String :=
  ⟨s.toList.map Char.toLower⟩

/-- Python `str.replace(",", "")`: remove every comma. -/
def removeCommas (s : String) : String :=
  ⟨s.toList.filter (fun c => c != ',')⟩

/-- Worker for `pyTitle`: the Bool records whether the previous character
was alphabetic (if so the current letter is lowercased, otherwise it starts
a word and is uppercased). -/
def pyTitleGo : Bool → List Char → List Char
  | _, [] => []
  | prevAlpha, c :: cs =>
    if c.isAlpha then
      (if prevAlpha then c.toLower else c.toUpper) :: pyTitleGo true cs
    else
      c :: pyTitleGo false cs

/-- Python `str.title()` (ASCII part). -/
def pyTitle (s : String) : String :=
  ⟨pyTitleGo false s.toList⟩

/-- Does the first list start with the second one? (Python `startswith`.) -/
def listStarts : List Char → List Char → Bool
  | _, [] => true
  | [], _ :: _ => false
  | a :: as, b :: bs => a == b && listStarts as bs

/-- Does `hay` contain `needle` as a contiguous substring?
(Python `needle in hay`.) -/
def containsSub : List Char → List Char → Bool
  | [], needle => needle.isEmpty
  | c :: t, needle => listStarts (c :: t) needle || containsSub t needle

/-- Lexicographic (code-point) `≤` on character lists, Python's string
order. -/
def strLeB : List Char → List Char → Bool
  | [], _ => true
  | _ :: _, [] => false
  | a :: as, b :: bs =>
    if a.toNat < b.toNat then true
    else if b.toNat < a.toNat then false
    else strLeB as bs

/-- Lexicographic `≤` on strings. -/
def strLe (s t : String) : Bool := strLeB s.toList t.toList

/-- Lexicographic `≤` on `(officer, bucket)` key pairs, as pandas sorts a
two-column group key. -/
def pairLe (a b : String × String) : Bool :=
  if a.1 == b.1 then strLe a.2 b.2 else strLe a.1 b.1

/-! ### Cells and numeric coercion -/

/-- One CSV cell as pandas sees it: a missing value (`NaN`), a numeric
value, or a string. -/
inductive Cell : Type where
  | missing : Cell
  | num : Rat → Cell
  | str : String → Cell
  deriving DecidableEq

/-- Value of a decimal digit, `none` for any other character. -/
def digitVal? (c : Char) : Option Nat :=
  if c.isDigit then some (c.toNat - 48) else none

/-- Parse a list of characters as a base-10 natural number; fails if any
character is not a digit.  The empty list parses to `0` (callers guard
emptiness). -/
def parseNatDigits (cs : List Char) : Option Nat :=
  cs.foldl
    (fun acc c =>
      match acc, digitVal? c with
      | some a, some d => some (a * 10 + d)
      | _, _ => none)
    (some 0)

/-- Parse an unsigned decimal numeral `digits[.digits]` (at least one digit
overall).  Used to model the numeral subset of Python `float` /
`pd.to_numeric` that the source data exercises (no exponents). -/
def parseUnsigned (cs : List Char) : Option Rat :=
  let ip := cs.takeWhile (fun c => c != '.')
  match cs.dropWhile (fun c => c != '.') with
  | [] => if ip.isEmpty then none else (parseNatDigits ip).map (fun n => mkRat (Int.ofNat n) 1)
  | _ :: frac =>
    if ip.isEmpty && frac.isEmpty then none
    else
      match parseNatDigits ip, parseNatDigits frac with
      | some a, some b =>
        some (mkRat (Int.ofNat (a * 10 ^ frac.length + b)) (10 ^ frac.length))
      | _, _ => none

/-- `pd.to_numeric(s, errors="coerce")` on a string cell (equivalently
Python `float(s)` with failure as `none`): surrounding whitespace is
ignored, an optional sign, then a decimal numeral.  A comma makes the
parse fail. -/
def parseNumeric (s : String) : Option Rat :=
  match (pyStrip s).toList with
  | [] => none
  | '-' :: cs => (parseUnsigned cs).map (fun q => -q)
  | '+' :: cs => parseUnsigned cs
  | cs => parseUnsigned cs

/-- Python `int(s)` on a string: surrounding whitespace ignored, optional
sign, then digits only (a decimal point makes it raise, i.e. `none`). -/
def parsePyInt (s : String) : Option Int :=
  match (pyStrip s).toList with
  | [] => none
  | '-' :: cs => if cs.isEmpty then none else (parseNatDigits cs).map (fun n => -(n : Int))
  | '+' :: cs => if cs.isEmpty then none else (parseNatDigits cs).map (fun n => (n : Int))
  | cs => (parseNatDigits cs).map (fun n => (n : Int))

/-- `app.py` line 85: `pd.to_numeric(df[col], errors="coerce").fillna(0)`
applied to one repaid-column cell.  Note: no comma removal and no
stripping beyond what `to_numeric` itself does. -/
def appCoerceAmount : Cell → Rat
  | Cell.missing => 0
  | Cell.num q => q
  | Cell.str s => (parseNumeric s).getD 0

/-- `dashboard.py` lines 50-53 / 78-80:
`pd.to_numeric(str(x).replace(",", "").strip(), errors="coerce")` on one
cell; `none` is pandas `NaN`. -/
def dashCoerce : Cell → Option Rat
  | Cell.missing => none
  | Cell.num q => some q
  | Cell.str s => parseNumeric (pyStrip (removeCommas s))

/-! ### Bucket classification -/

/-- Python `int(x)` on a numeric value: truncation toward zero. -/
def ratTrunc (x : Rat) : Int :=
  if 0 ≤ x.num then Int.ofNat (x.num.toNat / x.den)
  else -Int.ofNat ((-x.num).toNat / x.den)

/-- The comparison chain of `app.py`'s `bucket_days_late` after the
`int` cast (lines 109-116). -/
def bucketOfInt (n : Int) : String :=
  if n ≤ 30 then "1-30"
  else if n ≤ 60 then "31-60"
  else if n ≤ 90 then "61-90"
  else "90+"

/-- `app.py` lines 102-116, `bucket_days_late`: missing → `"Unknown"`;
otherwise `int(x)` (truncation for numbers, string-to-int parse for
strings, `"Unknown"` when the cast raises) followed by the range chain. -/
def bucket_days_late : Cell → String
  | Cell.missing => "Unknown"
  | Cell.num q => bucketOfInt (ratTrunc q)
  | Cell.str s =>
    match parsePyInt s with
    | some n => bucketOfInt n
    | none => "Unknown"

/-- `dashboard.py` lines 62-65: `pd.cut(v, bins=[0, 30, 60, 90, inf],
labels=["1-30","31-60","61-90","90+"], right=True)` on one numeric value:
right-closed intervals `(0,30], (30,60], (60,90], (90,inf)`; a value in no
interval (in particular any `v ≤ 0`) gets no bucket (`NaN`). -/
def cutBucket (v : Rat) : Option String :=
  if 0 < v ∧ v ≤ 30 then some "1-30"
  else if 30 < v ∧ v ≤ 60 then some "31-60"
  else if 60 < v ∧ v ≤ 90 then some "61-90"
  else if 90 < v then some "90+"
  else none

/-- `pd.cut` on a possibly-`NaN` value: `NaN` stays `NaN`. -/
def cutBucketO (x : Option Rat) : Option String := x.bind cutBucket

/-! ### Group-by-and-sum (the aggregator) -/

/-- `df.groupby(keys)[value].sum()`: one row per distinct key, keys sorted
ascending (pandas sorts group keys by default), value = sum of the rows
with that key. -/
def groupbySum {K : Type} [DecidableEq K] (le : K → K → Bool)
    (l : List (K × Rat)) : List (K × Rat) :=
  (List.insertionSort (fun a b => le a b = true) (l.map Prod.fst).dedup).map
    (fun k => (k, ((l.filter (fun p => p.1 == k)).map Prod.snd).sum))

/-! ### app.py dashboard pipeline -/

/-- One normalized record of `app.py`'s dashboard: cleaned officer name,
derived bucket label, derived per-row repaid total. -/
structure Record where
  officer : String
  bucket : String
  total_repaid : Rat
  deriving DecidableEq

/-- One raw input row of `app.py`: the officer cell (already a string via
`astype(str)`), the days-late cell, and the cells of the detected repaid
columns. -/
structure RawRow where
  officer : String
  daysLate : Cell
  repaid : List Cell
  deriving DecidableEq

/-- `app.py` lines 75-118 applied to one row: officer
`.strip().title()`, coerce every repaid cell and sum (`total_repaid`),
classify the days-late cell. -/
def mkRecord (r : RawRow) : Record :=
  ⟨pyTitle (pyStrip r.officer), bucket_days_late r.daysLate,
    (r.repaid.map appCoerceAmount).sum⟩

/-- `app.py` lines 121-127: the static bucket → assigned-officers mapping
(`bucket_officers_raw`), any other key defaulting to `[]` via `.get(b, [])`. -/
def bucket_officers_raw : String → List String
  | "1-30" => ["Dennis", "Moses", "Lydia"]
  | "31-60" => ["Josline", "Kennedy"]
  | "61-90" => ["Nyamisa", "Waswa"]
  | _ => []

/-- `app.py` line 127: the assignment lists with `.strip().title()` applied
to each name. -/
def bucket_officers (b : String) : List String :=
  (bucket_officers_raw b).map (fun n => pyTitle (pyStrip n))

/-- `app.py` lines 153-157: `filtered_df.groupby(["officer",
"days_late_bucket"])["total_repaid"].sum().reset_index()`. -/
def officer_summary (l : List Record) : List ((String × String) × Rat) :=
  groupbySum pairLe (l.map (fun r => ((r.officer, r.bucket), r.total_repaid)))

/-- `app.py` line 93: a column counts as the days-late column when its
lowercase name contains both `"days"` and `"late"` and is not the decoy
`"days_late_lastinstallment"`. -/
def isDaysLateCol (c : String) : Bool :=
  containsSub (lowerStr c).toList "days".toList
    && containsSub (lowerStr c).toList "late".toList
    && !((lowerStr c) == "days_late_lastinstallment")

/-- `app.py` lines 91-95: first matching column, scanning in order. -/
def findDaysLateCol (cols : List String) : Option String :=
  cols.find? isDaysLateCol

/-- `app.py` dashboard view up to `officer_summary`: detect the days-late
column (`st.error` + `st.stop()` when absent, lines 97-99 — no aggregation
happens), otherwise normalize rows, apply the sidebar filter
(lines 141-148) and group (lines 153-157). -/
def appView (cols : List String) (rows : List RawRow) (chosenBucket : String) :
    Except String (List ((String × String) × Rat)) :=
  match findDaysLateCol cols with
  | none => Except.error "No valid 'days_late' column found."
  | some _ =>
    let df := rows.map mkRecord
    let filtered :=
      if chosenBucket == "All" then df
      else df.filter (fun r =>
        r.bucket == chosenBucket && (bucket_officers chosenBucket).contains r.officer)
    Except.ok (officer_summary filtered)

/-! ### Top / lowest collectors -/

/-- `idxmax` then `.loc`: the first row attaining the maximum value
(pandas `idxmax` returns the first occurrence of the maximum). -/
def firstMaxBy {α : Type} (val : α → Rat) : List α → Option α
  | [] => none
  | x :: xs =>
    match firstMaxBy val xs with
    | none => some x
    | some m => if val x < val m then some m else some x

/-- `idxmin` then `.loc`: the first row attaining the minimum value. -/
def firstMinBy {α : Type} (val : α → Rat) : List α → Option α
  | [] => none
  | x :: xs =>
    match firstMinBy val xs with
    | none => some x
    | some m => if val m < val x then some m else some x

/-- `app.py` line 188: the rows of `officer_summary` for bucket `b`
restricted to that bucket's assigned officers (`isin(assigned)`),
in grouped row order. -/
def candGroup (summary : List ((String × String) × Rat)) (b : String) :
    List ((String × String) × Rat) :=
  (summary.filter (fun p => p.1.2 == b)).filter
    (fun p => (bucket_officers b).contains p.1.1)

/-- The distinct bucket labels of a summary in ascending order
(`officer_summary.groupby("days_late_bucket")` iteration order). -/
def bucketKeys (summary : List ((String × String) × Rat)) : List String :=
  List.insertionSort (fun a b => strLe a b = true) (summary.map (fun p => p.1.2)).dedup

/-- One row of `app.py`'s `top_lowest_list`. -/
structure TLEntry where
  bucket : String
  topCollector : String
  topAmount : Rat
  lowCollector : String
  lowAmount : Rat
  deriving DecidableEq

/-- `app.py` lines 185-198: per bucket, restrict to assigned officers and,
when the restriction is non-empty, record the first-max and first-min
rows; an empty restriction contributes nothing. -/
def top_lowest_list (summary : List ((String × String) × Rat)) : List TLEntry :=
  (bucketKeys summary).filterMap (fun b =>
    match firstMaxBy (fun p => p.2) (candGroup summary b),
          firstMinBy (fun p => p.2) (candGroup summary b) with
    | some t, some lo => some ⟨b, t.1.1, t.2, lo.1.1, lo.2⟩
    | _, _ => none)

/-! ### dashboard.py pipeline -/

/-- Which of the three known Pochi columns are present
(`"days_late" in df.columns` etc.). -/
structure PochiCfg where
  hasDaysLate : Bool
  hasTotalDue : Bool
  hasRepaid : Bool
  deriving DecidableEq

/-- One raw Pochi row: the normalized officer name and the three cells
(the cell fields are ignored when the matching column is absent). -/
structure PochiRow where
  officer : String
  days_late : Cell
  total_due : Cell
  repaid_amounts : Cell
  deriving DecidableEq

/-- `dashboard.py` lines 62-67: bucket of one row — `pd.cut` of the coerced
`days_late` when that column exists, the constant string `"Unknown"`
otherwise. -/
def pochiBucket (cfg : PochiCfg) (r : PochiRow) : Option String :=
  if cfg.hasDaysLate then cutBucketO (dashCoerce r.days_late) else some "Unknown"

/-- `dashboard.py` lines 55-59: `Amount Collected` of one row —
`total_due - repaid_amounts` when both columns exist (`NaN` when either
cell is `NaN`), the constant `0` otherwise. -/
def pochiAmount (cfg : PochiCfg) (r : PochiRow) : Option Rat :=
  if cfg.hasTotalDue && cfg.hasRepaid then
    match dashCoerce r.total_due, dashCoerce r.repaid_amounts with
    | some a, some b => some (a - b)
    | _, _ => none
  else some 0

/-- The keyed rows entering the Pochi `groupby(["Officer", "Bucket"])`:
rows whose bucket is `NaN` are dropped (pandas drops `NaN` group keys);
a `NaN` amount is skipped by `.sum()`, i.e. contributes `0`. -/
def pochiRows (cfg : PochiCfg) (rows : List PochiRow) :
    List ((String × String) × Rat) :=
  rows.filterMap (fun r =>
    (pochiBucket cfg r).map (fun b => ((r.officer, b), (pochiAmount cfg r).getD 0)))

/-- `dashboard.py` line 70: `df.groupby(["Officer", "Bucket"],
as_index=False)[["Amount Collected"]].sum()`. -/
def pochiSummary (cfg : PochiCfg) (rows : List PochiRow) :
    List ((String × String) × Rat) :=
  groupbySum pairLe (pochiRows cfg rows)

/-- The pandas column sum `df["Amount Collected"].sum()` over the raw Pochi
rows (`NaN` skipped). -/
def pochiAmountColumnSum (cfg : PochiCfg) (rows : List PochiRow) : Rat :=
  (rows.map (fun r => (pochiAmount cfg r).getD 0)).sum

/-- `dashboard.py` line 83 (non-Pochi sheets):
`df.groupby("Officer", as_index=False)[["Amount Collected"]].sum()` on
already-built `(officer, amount)` rows. -/
def dashOfficerSummary (rows : List (String × Rat)) : List (String × Rat) :=
  groupbySum strLe rows

/-! ### Message store -/

/-- One persisted message (columns `Name`, `Message`, `Timestamp`). -/
structure Message where
  name : String
  text : String
  timestamp : String
  deriving DecidableEq

/-- `app.py` lines 276-289: the submit handler.  Python truthiness rejects
exactly the empty string (`if (not name) or (not message)`); an accepted
pair is appended with `name.strip().title()` and `message.strip()` and the
whole list is rewritten to disk. -/
def submitMessage (msgs : List Message) (name text timestamp : String) :
    List Message :=
  if name = "" ∨ text = "" then msgs
  else msgs ++ [⟨pyTitle (pyStrip name), pyStrip text, timestamp⟩]

/-! ### Generic facts about `groupbySum` -/

theorem sum_ite_single {K : Type} [DecidableEq K] (a : K) (v : Rat) :
    ∀ ks : List K, ks.Nodup → a ∈ ks →
      (ks.map (fun k => if a = k then v else 0)).sum = v := by
  intro ks
  induction ks with
  | nil => intro _ h; cases h
  | cons k t ih =>
    intro hnd hmem
    rcases List.mem_cons.mp hmem with h | h
    · subst h
      have hnotin : a ∉ t := (List.nodup_cons.mp hnd).1
      have hz : (t.map (fun k => if a = k then v else 0)).sum = 0 := by
        apply List.sum_eq_zero
        intro x hx
        rcases List.mem_map.mp hx with ⟨k', hk', rfl⟩
        have hne : a ≠ k' := fun e => hnotin (e ▸ hk')
        simp [hne]
      simp [hz]
    · have hne : a ≠ k := by
        intro e
        subst e
        exact (List.nodup_cons.mp hnd).1 h
      have ht := ih (List.nodup_cons.mp hnd).2 h
      simp [hne, ht]

theorem sum_map_filter_key {K : Type} [DecidableEq K] :
    ∀ (l : List (K × Rat)) (ks : List K), ks.Nodup → (∀ p ∈ l, p.1 ∈ ks) →
      (ks.map (fun k => ((l.filter (fun p => p.1 == k)).map Prod.snd).sum)).sum
        = (l.map Prod.snd).sum := by
  intro l
  induction l with
  | nil => intro ks _ _; simp
  | cons x xs ih =>
    intro ks hnd hcov
    have hx : x.1 ∈ ks := hcov x (List.mem_cons_self x xs)
    have hcov' : ∀ p ∈ xs, p.1 ∈ ks := fun p hp => hcov p (List.mem_cons_of_mem x hp)
    have hstep : ∀ k : K,
        (((x :: xs).filter (fun p => p.1 == k)).map Prod.snd).sum
          = (if x.1 = k then x.2 else 0)
            + ((xs.filter (fun p => p.1 == k)).map Prod.snd).sum := by
      intro k
      by_cases hk : x.1 = k
      · simp [List.filter_cons, hk]
      · simp [List.filter_cons, hk]
    simp only [hstep]
    rw [List.sum_map_add, sum_ite_single x.1 x.2 ks hnd hx, ih ks hnd hcov']
    simp

theorem sum_groupbySum {K : Type} [DecidableEq K] (le : K → K → Bool)
    (l : List (K × Rat)) :
    ((groupbySum le l).map Prod.snd).sum = (l.map Prod.snd).sum := by
  unfold groupbySum
  rw [List.map_map]
  have hcomp : (Prod.snd ∘ fun k => (k, ((l.filter (fun p => p.1 == k)).map Prod.snd).sum))
      = fun k => ((l.filter (fun p => p.1 == k)).map Prod.snd).sum := rfl
  rw [hcomp]
  have hperm := (List.perm_insertionSort (fun a b => le a b = true)
    (l.map Prod.fst).dedup).map
    (fun k => ((l.filter (fun p => p.1 == k)).map Prod.snd).sum)
  rw [hperm.sum_eq]
  apply sum_map_filter_key
  · exact List.nodup_dedup _
  · intro p hp
    exact List.mem_dedup.mpr (List.mem_map_of_mem Prod.fst hp)

theorem pochiRows_map_snd (cfg : PochiCfg) :
    ∀ rows : List PochiRow, (∀ r ∈ rows, pochiBucket cfg r ≠ none) →
      ((pochiRows cfg rows).map Prod.snd).sum
        = (rows.map (fun r => (pochiAmount cfg r).getD 0)).sum := by
  intro rows
  induction rows with
  | nil => intro _; simp [pochiRows]
  | cons r t ih =>
    intro h
    have hr : pochiBucket cfg r ≠ none := h r (List.mem_cons_self r t)
    have ht : ∀ x ∈ t, pochiBucket cfg x ≠ none :=
      fun x hx => h x (List.mem_cons_of_mem r hx)
    rcases hb : pochiBucket cfg r with _ | b
    · exact absurd hb hr
    · simp only [pochiRows, List.filterMap_cons, hb, Option.map_some']
      simp only [pochiRows] at ih
      simp [ih ht]

/-! ### Claim C1 -/

/-- C1, counterexample: in the dashboard Pochi path a row whose
`days_late` is `0` gets a `NaN` bucket from `pd.cut` and is dropped by
`groupby(["Officer", "Bucket"])`, so the sum of the per-group totals
(here `0`) differs from the sum of the amount column over all rows
(here `5`): rows can be dropped, contradicting the claim. -/
theorem aggregator_sum_invariant_cex :
    ((pochiSummary ⟨true, true, true⟩
        [⟨"A", Cell.num 0, Cell.num 5, Cell.num 0⟩]).map Prod.snd).sum = 0
    ∧ pochiAmountColumnSum ⟨true, true, true⟩
        [⟨"A", Cell.num 0, Cell.num 5, Cell.num 0⟩] = 5
    ∧ (0 : Rat) ≠ 5 := by
  refine ⟨by decide, ?_, by decide⟩
  simp [pochiAmountColumnSum, pochiAmount, dashCoerce]

/-- C1 (amended): the sum of the per-group totals equals the sum of the
amount column over all filtered rows for `app.py`'s
`{officer, bucket}` grouping and for the dashboard's `{Officer}`
grouping, unconditionally; for the dashboard Pochi
`{Officer, Bucket}` grouping it holds provided every row's bucket is
defined (rows whose bucket is `NaN` are dropped by the groupby). -/
theorem aggregator_sum_invariant :
    (∀ l : List Record,
      ((officer_summary l).map Prod.snd).sum
        = (l.map Record.total_repaid).sum) ∧
    (∀ rows : List (String × Rat),
      ((dashOfficerSummary rows).map Prod.snd).sum
        = (rows.map Prod.snd).sum) ∧
    (∀ (cfg : PochiCfg) (rows : List PochiRow),
      (∀ r ∈ rows, pochiBucket cfg r ≠ none) →
      ((pochiSummary cfg rows).map Prod.snd).sum
        = pochiAmountColumnSum cfg rows) := by
  refine ⟨?_, ?_, ?_⟩
  · intro l
    rw [officer_summary, sum_groupbySum, List.map_map]
    rfl
  · intro rows
    exact sum_groupbySum strLe rows
  · intro cfg rows h
    rw [pochiSummary, sum_groupbySum, pochiRows_map_snd cfg rows h,
      pochiAmountColumnSum]

/-- Witness for C1 (amended): a concrete Pochi row whose bucket is
defined, at which the hypothesis of the third conjunct holds and the sum
invariant follows. -/
theorem aggregator_sum_invariant_witness :
    (∀ r ∈ [(⟨"A", Cell.num 10, Cell.num 5, Cell.num 0⟩ : PochiRow)],
      pochiBucket ⟨true, true, true⟩ r ≠ none) ∧
    ((pochiSummary ⟨true, true, true⟩
        [⟨"A", Cell.num 10, Cell.num 5, Cell.num 0⟩]).map Prod.snd).sum
      = pochiAmountColumnSum ⟨true, true, true⟩
          [⟨"A", Cell.num 10, Cell.num 5, Cell.num 0⟩] :=
  ⟨by decide, aggregator_sum_invariant.2.2 ⟨true, true, true⟩ _ (by decide)⟩

/-! ### Claims C2, C3, C4 -/

theorem ratTrunc_intCast (d : Int) : ratTrunc (d : Rat) = d := by
  unfold ratTrunc
  rw [Rat.num_intCast, Rat.den_intCast]
  by_cases h : 0 ≤ d
  · rw [if_pos h]
    simp [Nat.div_one, Int.toNat_of_nonneg h]
  · rw [if_neg h]
    simp only [Nat.div_one, Int.ofNat_eq_coe]
    omega

theorem ratTrunc_nonpos (v : Rat) (h : v < 0) : ratTrunc v ≤ 0 := by
  unfold ratTrunc
  have hn : ¬ 0 ≤ v.num :=
    fun hc => absurd (Rat.num_nonneg.mp hc) (not_le.mpr h)
  rw [if_neg hn]
  exact neg_nonpos.mpr (Int.ofNat_nonneg _)

/-- C2: for every integer `d` the classifier returns one of the five
labels, with `classify 30 = "1-30"`, `classify 31 = "31-60"`,
`classify 90 = "61-90"`, `classify 91 = "90+"`, and a missing input
classifying as `"Unknown"`. -/
theorem classifier_labels :
    (∀ d : Int, bucket_days_late (Cell.num (d : Rat))
      ∈ ["1-30", "31-60", "61-90", "90+", "Unknown"]) ∧
    bucket_days_late (Cell.num 30) = "1-30" ∧
    bucket_days_late (Cell.num 31) = "31-60" ∧
    bucket_days_late (Cell.num 90) = "61-90" ∧
    bucket_days_late (Cell.num 91) = "90+" ∧
    bucket_days_late Cell.missing = "Unknown" := by
  refine ⟨?_, by decide, by decide, by decide, by decide, rfl⟩
  intro d
  show bucketOfInt (ratTrunc (d : Rat)) ∈ _
  rw [ratTrunc_intCast]
  unfold bucketOfInt
  split_ifs <;> simp

/-- C3, counterexample: at the integer input `0` the integer-cast policy
(`app.py`) yields `"1-30"` while the binned-range policy
(`dashboard.py`'s `pd.cut`, whose lowest interval is the open-below
`(0, 30]`) assigns no bucket, so the two policies do not agree on all
integer inputs. -/
theorem bucket_policy_agreement_cex :
    bucket_days_late (Cell.num 0) = "1-30"
    ∧ cutBucket 0 = none
    ∧ cutBucket 0 ≠ some (bucket_days_late (Cell.num 0)) :=
  ⟨by decide, by decide, by decide⟩

/-- C3 (amended): the two bucket policies produce the identical bucket
for every integer input `d ≥ 1`; for `d ≤ 0` the integer-cast policy
yields `"1-30"` while the binned policy assigns no bucket. -/
theorem bucket_policy_agreement (d : Int) (h : 1 ≤ d) :
    cutBucket (d : Rat) = some (bucket_days_late (Cell.num (d : Rat))) := by
  have ht : bucket_days_late (Cell.num (d : Rat)) = bucketOfInt d := by
    show bucketOfInt (ratTrunc (d : Rat)) = _
    rw [ratTrunc_intCast]
  rw [ht]
  have h0 : (0 : Rat) < (d : Rat) := by exact_mod_cast h
  by_cases h30 : d ≤ 30
  · have hr : ((d : Rat)) ≤ 30 := by exact_mod_cast h30
    simp [cutBucket, bucketOfInt, h0, hr, h30]
  · have hr30 : (30 : Rat) < (d : Rat) := by exact_mod_cast not_le.mp h30
    have hnr30 : ¬ ((d : Rat)) ≤ 30 := not_le.mpr hr30
    by_cases h60 : d ≤ 60
    · have hr : ((d : Rat)) ≤ 60 := by exact_mod_cast h60
      simp [cutBucket, bucketOfInt, hnr30, hr30, hr, h30, h60]
    · have hr60 : (60 : Rat) < (d : Rat) := by exact_mod_cast not_le.mp h60
      have hnr60 : ¬ ((d : Rat)) ≤ 60 := not_le.mpr hr60
      by_cases h90 : d ≤ 90
      · have hr : ((d : Rat)) ≤ 90 := by exact_mod_cast h90
        simp [cutBucket, bucketOfInt, hnr30, hnr60, hr60, hr, h30, h60, h90]
      · have hr90 : (90 : Rat) < (d : Rat) := by exact_mod_cast not_le.mp h90
        have hnr90 : ¬ ((d : Rat)) ≤ 90 := not_le.mpr hr90
        simp [cutBucket, bucketOfInt, hnr30, hnr60, hnr90, hr90, h30, h60, h90]

/-- Witness for C3 (amended) at `d = 31`. -/
theorem bucket_policy_agreement_witness :
    1 ≤ (31 : Int)
    ∧ cutBucket ((31 : Int) : Rat)
        = some (bucket_days_late (Cell.num ((31 : Int) : Rat))) :=
  ⟨by decide, bucket_policy_agreement 31 (by decide)⟩

/-- C4, counterexample: at `-1` the integer-cast policy yields `"1-30"`
but the binned policy yields no bucket at all, so it is not the case that
both policies classify negative values as `"1-30"`. -/
theorem negative_bucket_cex :
    bucket_days_late (Cell.num (-1)) = "1-30"
    ∧ cutBucket (-1) = none
    ∧ cutBucket (-1) ≠ some "1-30" :=
  ⟨by decide, by decide, by decide⟩

/-- C4 (amended): every negative days-late value is classified `"1-30"`
by the integer-cast policy (only the upper bound of that interval is
checked there), while the binned-range policy assigns it no bucket
(`pd.cut`'s lowest interval is bounded below by `0`, exclusive). -/
theorem negative_bucket (v : Rat) (h : v < 0) :
    bucket_days_late (Cell.num v) = "1-30" ∧ cutBucket v = none := by
  constructor
  · show bucketOfInt (ratTrunc v) = _
    have ht := ratTrunc_nonpos v h
    unfold bucketOfInt
    rw [if_pos (by omega)]
  · have h30 : ¬ ((0 : Rat) < v ∧ v ≤ 30) := by
      intro hc
      linarith [hc.1]
    have h60 : ¬ ((30 : Rat) < v ∧ v ≤ 60) := by
      intro hc
      linarith [hc.1]
    have h90 : ¬ ((60 : Rat) < v ∧ v ≤ 90) := by
      intro hc
      linarith [hc.1]
    have h90p : ¬ ((90 : Rat) < v) := by
      intro hc
      linarith
    simp [cutBucket, h30, h60, h90, h90p]

/-- Witness for C4 (amended) at `v = -1`. -/
theorem negative_bucket_witness :
    ((-1 : Rat) < 0)
    ∧ (bucket_days_late (Cell.num (-1)) = "1-30" ∧ cutBucket (-1) = none) :=
  ⟨by decide, negative_bucket (-1) (by decide)⟩

/-! ### Claim C5 -/

/-- C5, counterexample: `app.py`'s repaid-column coercion applies
`pd.to_numeric` with no comma removal, so `"1,234.50"` fails to parse and
is coerced to `0`, not `1234.50` — the claim is false for that
amount-coercion path. -/
theorem coercer_cex :
    appCoerceAmount (Cell.str "1,234.50") = 0 ∧ (0 : Rat) ≠ 1234.5 := by
  refine ⟨by decide, ?_⟩
  norm_num

/-- C5 (amended): the dashboard coercion paths strip whitespace and
remove comma separators, so `"1,234.50"` coerces to `1234.50` there;
`app.py`'s repaid-column coercion has no comma removal and coerces
`"1,234.50"` to `0`.  On parse failure an amount cell coerces to `0`
while a days-late cell is treated as missing — the `"Unknown"` bucket in
`app.py`, no bucket at all in `dashboard.py`. -/
theorem coercer_spec :
    dashCoerce (Cell.str " 1,234.50 ") = some 1234.5
    ∧ appCoerceAmount (Cell.str "1,234.50") = 0
    ∧ appCoerceAmount (Cell.str "abc") = 0
    ∧ dashCoerce (Cell.str "abc") = none
    ∧ bucket_days_late (Cell.str "abc") = "Unknown"
    ∧ cutBucketO (dashCoerce (Cell.str "abc")) = none := by
  refine ⟨?_, by decide, by decide, by decide, by decide, by decide⟩
  have h1 : dashCoerce (Cell.str " 1,234.50 ") = some (mkRat 2469 2) := by
    decide
  rw [h1, Rat.mkRat_eq_div]
  norm_num

/-! ### Claim C7 -/

/-- C7, counterexample: a whitespace-only name is truthy in Python, so
the submit handler accepts the pair and persists a message whose stored
name trims to the empty string — the persisted set is changed although
the name is empty after trimming. -/
theorem message_validation_cex :
    submitMessage [] " " "hi" "2025-01-01 00:00:00"
      = [⟨"", "hi", "2025-01-01 00:00:00"⟩]
    ∧ submitMessage [] " " "hi" "2025-01-01 00:00:00" ≠ ([] : List Message) :=
  ⟨by decide, by decide⟩

/-- C7 (amended): the append is rejected — and the persisted list left
unchanged — exactly when the raw `name` or the raw `message` is the empty
string; whitespace-only fields pass the check and are persisted with
trimmed (and, for the name, title-cased) values. -/
theorem message_validation (msgs : List Message) (name text ts : String)
    (h : name = "" ∨ text = "") :
    submitMessage msgs name text ts = msgs := by
  unfold submitMessage
  rw [if_pos h]

/-- Witness for C7 (amended): an empty raw name leaves the store
unchanged. -/
theorem message_validation_witness :
    (("" : String) = "" ∨ ("hello" : String) = "")
    ∧ submitMessage [] "" "hello" "2025-01-01 00:00:00" = [] :=
  ⟨Or.inl rfl, message_validation [] "" "hello" "2025-01-01 00:00:00" (Or.inl rfl)⟩

/-! ### Claim C8 -/

/-- C8: when no fetched column name contains both `"days"` and `"late"`
(excluding the decoy `days_late_lastinstallment`), the app view stops
with the error `"No valid 'days_late' column found."` and produces no
aggregated output for that view. -/
theorem days_late_detection (cols : List String) (rows : List RawRow)
    (chosenBucket : String) (h : ∀ c ∈ cols, isDaysLateCol c = false) :
    appView cols rows chosenBucket
      = Except.error "No valid 'days_late' column found." := by
  have hnone : findDaysLateCol cols = none := by
    rw [findDaysLateCol, List.find?_eq_none]
    intro x hx
    rw [h x hx]
    exact Bool.false_ne_true
  simp only [appView, hnone]

/-- Witness for C8: a column set containing only the decoy and an
unrelated column triggers the error. -/
theorem days_late_detection_witness :
    (∀ c ∈ ["customer_id", "days_late_lastinstallment"], isDaysLateCol c = false)
    ∧ appView ["customer_id", "days_late_lastinstallment"] [] "All"
        = Except.error "No valid 'days_late' column found." :=
  ⟨by decide, days_late_detection _ [] "All" (by decide)⟩

/-! ### Claim C10 -/

/-- C10: in the Pochi path the per-row `Amount Collected` is
`total_due - repaid_amounts` when both columns are present (propagating a
missing operand, hence possibly negative or missing for individual rows)
and the constant `0` for every row when either column is absent. -/
theorem pochi_amount_collected :
    (∀ (cfg : PochiCfg) (r : PochiRow), cfg.hasTotalDue = true →
      cfg.hasRepaid = true →
      pochiAmount cfg r = (dashCoerce r.total_due).bind
        (fun a => (dashCoerce r.repaid_amounts).map (fun b => a - b))) ∧
    (∀ (cfg : PochiCfg) (r : PochiRow), cfg.hasTotalDue = false →
      pochiAmount cfg r = some 0) ∧
    (∀ (cfg : PochiCfg) (r : PochiRow), cfg.hasRepaid = false →
      pochiAmount cfg r = some 0) ∧
    (pochiAmount ⟨true, true, true⟩ ⟨"A", Cell.num 10, Cell.num 0, Cell.num 1⟩
      = some (-1)) ∧
    (pochiAmount ⟨true, true, true⟩ ⟨"A", Cell.num 10, Cell.str "x", Cell.num 1⟩
      = none) := by
  refine ⟨?_, ?_, ?_, ?_, by decide⟩
  · intro cfg r h1 h2
    unfold pochiAmount
    rw [h1, h2]
    simp only [Bool.and_self, if_true]
    cases ha : dashCoerce r.total_due with
    | none => simp
    | some a =>
      cases hb : dashCoerce r.repaid_amounts with
      | none => simp
      | some b => simp
  · intro cfg r h1
    unfold pochiAmount
    rw [h1]
    simp
  · intro cfg r h2
    unfold pochiAmount
    rw [h2]
    simp
  · simp [pochiAmount, dashCoerce]

/-- Witness for C10 at a concrete configuration and row with both columns
present. -/
theorem pochi_amount_collected_witness :
    ((⟨true, true, true⟩ : PochiCfg).hasTotalDue = true
      ∧ (⟨true, true, true⟩ : PochiCfg).hasRepaid = true)
    ∧ pochiAmount ⟨true, true, true⟩ ⟨"A", Cell.num 10, Cell.num 7, Cell.num 2⟩
        = (dashCoerce (Cell.num 7)).bind
            (fun a => (dashCoerce (Cell.num 2)).map (fun b => a - b)) :=
  ⟨⟨rfl, rfl⟩,
    pochi_amount_collected.1 ⟨true, true, true⟩
      ⟨"A", Cell.num 10, Cell.num 7, Cell.num 2⟩ rfl rfl⟩

/-! ### Claim C6 -/

/-- C6: the per-bucket top/lowest computation considers only officers in
that bucket's assignment set; if no summary row of a bucket belongs to an
assigned officer, `top_lowest_list` emits no entry for that bucket (there
is no fallback to unassigned officers). -/
theorem top_lowest_restriction (summary : List ((String × String) × Rat))
    (b : String)
    (h : ∀ p ∈ summary, p.1.2 = b → p.1.1 ∉ bucket_officers b) :
    ∀ e ∈ top_lowest_list summary, e.bucket ≠ b := by
  intro e he heq
  rcases List.mem_filterMap.mp he with ⟨k, _, hfk⟩
  have hcand : candGroup summary b = [] := by
    rw [candGroup, List.filter_eq_nil_iff]
    intro a ha
    rcases List.mem_filter.mp ha with ⟨hmem, hbeq⟩
    have hab : a.1.2 = b := beq_iff_eq.mp hbeq
    have hnotin := h a hmem hab
    simpa using hnotin
  by_cases hbk : k = b
  · subst hbk
    rw [hcand] at hfk
    simp [firstMaxBy] at hfk
  · rcases hmax : firstMaxBy (fun p => p.2) (candGroup summary k) with _ | t
    · rw [hmax] at hfk
      simp at hfk
    · rcases hmin : firstMinBy (fun p => p.2) (candGroup summary k) with _ | lo
      · rw [hmax, hmin] at hfk
        simp at hfk
      · rw [hmax, hmin] at hfk
        have he2 : e.bucket = k := by
          have := Option.some.inj hfk
          rw [← this]
        exact hbk (he2 ▸ heq)

/-- Witness for C6: the claim's own example — bucket `"31-60"` is
assigned `{Josline, Kennedy}` but its only summary row belongs to
`"Nyamisa"`, so no top/lowest entry is produced for that bucket. -/
theorem top_lowest_restriction_witness :
    (∀ p ∈ officer_summary [⟨"Nyamisa", "31-60", 100⟩], p.1.2 = "31-60" →
      p.1.1 ∉ bucket_officers "31-60")
    ∧ ∀ e ∈ top_lowest_list (officer_summary [⟨"Nyamisa", "31-60", 100⟩]),
        e.bucket ≠ "31-60" :=
  ⟨by decide, top_lowest_restriction _ _ (by decide)⟩

/-! ### Order facts about the lexicographic comparison -/

theorem char_toNat_inj {a b : Char} (h : a.toNat = b.toNat) : a = b := by
  have ha := Char.ofNat_toNat a
  rw [h, Char.ofNat_toNat b] at ha
  exact ha.symm

theorem strLeB_refl : ∀ cs : List Char, strLeB cs cs = true := by
  intro cs
  induction cs with
  | nil => rfl
  | cons c t ih => simp [strLeB, Nat.lt_irrefl, ih]

theorem strLe_refl (s : String) : strLe s s = true := strLeB_refl s.toList

theorem strLeB_total : ∀ s t : List Char, strLeB s t = true ∨ strLeB t s = true := by
  intro s
  induction s with
  | nil => intro t; left; rfl
  | cons a as ih =>
    intro t
    cases t with
    | nil => right; rfl
    | cons b bs =>
      rcases Nat.lt_trichotomy a.toNat b.toNat with h | h | h
      · left
        simp [strLeB, h]
      · rcases ih bs with h2 | h2
        · left
          simp [strLeB, h, Nat.lt_irrefl, h2]
        · right
          simp [strLeB, h, Nat.lt_irrefl, h2]
      · right
        simp [strLeB, h]

theorem strLeB_trans : ∀ s t u : List Char,
    strLeB s t = true → strLeB t u = true → strLeB s u = true := by
  intro s
  induction s with
  | nil => intro t u _ _; rfl
  | cons a as ih =>
    intro t u h1 h2
    cases t with
    | nil => simp [strLeB] at h1
    | cons b bs =>
      cases u with
      | nil => simp [strLeB] at h2
      | cons c cs =>
        rcases Nat.lt_trichotomy a.toNat b.toNat with hab | hab | hab
        · rcases Nat.lt_trichotomy b.toNat c.toNat with hbc | hbc | hbc
          · have hac : a.toNat < c.toNat := Nat.lt_trans hab hbc
            simp [strLeB, hac]
          · have hac : a.toNat < c.toNat := hbc ▸ hab
            simp [strLeB, hac]
          · simp [strLeB, Nat.lt_asymm hbc, hbc] at h2
        · rcases Nat.lt_trichotomy b.toNat c.toNat with hbc | hbc | hbc
          · have hac : a.toNat < c.toNat := hab ▸ hbc
            simp [strLeB, hac]
          · have hac : a.toNat = c.toNat := hab.trans hbc
            simp [strLeB, hab, Nat.lt_irrefl] at h1
            simp [strLeB, hbc, Nat.lt_irrefl] at h2
            simp [strLeB, hac, Nat.lt_irrefl]
            exact ih bs cs h1 h2
          · simp [strLeB, Nat.lt_asymm hbc, hbc] at h2
        · simp [strLeB, Nat.lt_asymm hab, hab] at h1

theorem strLeB_antisymm : ∀ s t : List Char,
    strLeB s t = true → strLeB t s = true → s = t := by
  intro s
  induction s with
  | nil =>
    intro t h1 h2
    cases t with
    | nil => rfl
    | cons b bs => simp [strLeB] at h2
  | cons a as ih =>
    intro t h1 h2
    cases t with
    | nil => simp [strLeB] at h1
    | cons b bs =>
      rcases Nat.lt_trichotomy a.toNat b.toNat with h | h | h
      · simp [strLeB, Nat.lt_asymm h, h] at h2
      · have hc : a = b := char_toNat_inj h
        subst hc
        simp [strLeB, Nat.lt_irrefl] at h1 h2
        rw [ih bs h1 h2]
      · simp [strLeB, Nat.lt_asymm h, h] at h1

theorem strLe_total (s t : String) : strLe s t = true ∨ strLe t s = true :=
  strLeB_total s.toList t.toList

theorem strLe_trans {s t u : String} (h1 : strLe s t = true)
    (h2 : strLe t u = true) : strLe s u = true :=
  strLeB_trans s.toList t.toList u.toList h1 h2

theorem strLe_antisymm {s t : String} (h1 : strLe s t = true)
    (h2 : strLe t s = true) : s = t := by
  have h := strLeB_antisymm s.toList t.toList h1 h2
  cases s with
  | mk ds =>
    cases t with
    | mk dt =>
      have h' : ds = dt := h
      rw [h']

instance : IsTotal String (fun a b => strLe a b = true) :=
  ⟨strLe_total⟩

instance : IsTrans String (fun a b => strLe a b = true) :=
  ⟨fun _ _ _ => strLe_trans⟩

instance : IsTotal (String × String) (fun a b => pairLe a b = true) := by
  constructor
  intro a b
  by_cases h : a.1 = b.1
  · simp only [pairLe, h, beq_self_eq_true, if_true]
    exact strLe_total a.2 b.2
  · have h' : ¬ b.1 = a.1 := fun e => h e.symm
    simp only [pairLe, h, h', beq_iff_eq, if_false]
    exact strLe_total a.1 b.1

instance : IsTrans (String × String) (fun a b => pairLe a b = true) := by
  constructor
  intro a b c h1 h2
  by_cases hab : a.1 = b.1 <;> by_cases hbc : b.1 = c.1
  · have hac : a.1 = c.1 := hab.trans hbc
    simp only [pairLe, hab, hbc, hac, beq_self_eq_true, if_true] at h1 h2 ⊢
    exact strLe_trans h1 h2
  · have hac : ¬ a.1 = c.1 := fun e => hbc (hab.symm.trans e)
    simp only [pairLe, hab, hbc, hac, beq_self_eq_true, beq_iff_eq, if_true,
      if_false] at h1 h2 ⊢
    exact h2
  · have hac : ¬ a.1 = c.1 := fun e => hab (e.trans hbc.symm)
    simp only [pairLe, hab, hbc, hac, beq_self_eq_true, beq_iff_eq, if_true,
      if_false] at h1 h2 ⊢
    exact h1
  · by_cases hac : a.1 = c.1
    · exfalso
      simp only [pairLe, hab, hbc, beq_iff_eq, if_false] at h1 h2
      rw [← hac] at h2
      exact hab (strLe_antisymm h1 h2)
    · simp only [pairLe, hab, hbc, hac, beq_iff_eq, if_false] at h1 h2 ⊢
      exact strLe_trans h1 h2

/-! ### First-extremal-row facts (`idxmax` / `idxmin`) -/

theorem firstMaxBy_cons_some {α : Type} (val : α → Rat) (x : α) (xs : List α) :
    (firstMaxBy val (x :: xs)).isSome = true := by
  rcases h : firstMaxBy val xs with _ | m <;> simp only [firstMaxBy, h]
  · rfl
  · split <;> rfl

theorem firstMinBy_cons_some {α : Type} (val : α → Rat) (x : α) (xs : List α) :
    (firstMinBy val (x :: xs)).isSome = true := by
  rcases h : firstMinBy val xs with _ | m <;> simp only [firstMinBy, h]
  · rfl
  · split <;> rfl

/-- `idxmax` returns a row of the group, its value is maximal, and on
ties the first — hence, in a group sorted ascending by officer, the
lexicographically smallest — row wins. -/
theorem firstMaxBy_spec {α : Type} (val : α → Rat) (off : α → String) :
    ∀ l : List α, l.Pairwise (fun a b => strLe (off a) (off b) = true) →
      ∀ r, firstMaxBy val l = some r →
        r ∈ l ∧ (∀ s ∈ l, val s ≤ val r)
          ∧ (∀ s ∈ l, val s = val r → strLe (off r) (off s) = true) := by
  intro l
  induction l with
  | nil => intro _ r hr; cases hr
  | cons x xs ih =>
    intro hp r hr
    have hpc := List.pairwise_cons.mp hp
    rcases hm : firstMaxBy val xs with _ | m
    · cases xs with
      | cons y ys =>
        have hs := firstMaxBy_cons_some val y ys
        rw [hm] at hs
        cases hs
      | nil =>
        have hrx : r = x := by
          simp only [firstMaxBy] at hr
          exact (Option.some.inj hr).symm
        subst hrx
        refine ⟨List.mem_cons_self _ _, ?_, ?_⟩
        · intro s hs
          rcases List.mem_cons.mp hs with rfl | hs'
          · exact le_refl _
          · cases hs'
        · intro s hs _
          rcases List.mem_cons.mp hs with rfl | hs'
          · exact strLe_refl _
          · cases hs'
    · have ihm := ih hpc.2 m hm
      simp only [firstMaxBy, hm] at hr
      by_cases hc : val x < val m
      · rw [if_pos hc] at hr
        have hrm : r = m := (Option.some.inj hr).symm
        subst hrm
        refine ⟨List.mem_cons_of_mem x ihm.1, ?_, ?_⟩
        · intro s hs
          rcases List.mem_cons.mp hs with rfl | hs'
          · exact le_of_lt hc
          · exact ihm.2.1 s hs'
        · intro s hs hv
          rcases List.mem_cons.mp hs with rfl | hs'
          · exact absurd hv (ne_of_lt hc)
          · exact ihm.2.2 s hs' hv
      · rw [if_neg hc] at hr
        have hrx : r = x := (Option.some.inj hr).symm
        subst hrx
        have hmx : val m ≤ val r := not_lt.mp hc
        refine ⟨List.mem_cons_self _ _, ?_, ?_⟩
        · intro s hs
          rcases List.mem_cons.mp hs with rfl | hs'
          · exact le_refl _
          · exact le_trans (ihm.2.1 s hs') hmx
        · intro s hs _
          rcases List.mem_cons.mp hs with rfl | hs'
          · exact strLe_refl _
          · exact hpc.1 s hs'

/-- `idxmin` analogue of `firstMaxBy_spec`. -/
theorem firstMinBy_spec {α : Type} (val : α → Rat) (off : α → String) :
    ∀ l : List α, l.Pairwise (fun a b => strLe (off a) (off b) = true) →
      ∀ r, firstMinBy val l = some r →
        r ∈ l ∧ (∀ s ∈ l, val r ≤ val s)
          ∧ (∀ s ∈ l, val s = val r → strLe (off r) (off s) = true) := by
  intro l
  induction l with
  | nil => intro _ r hr; cases hr
  | cons x xs ih =>
    intro hp r hr
    have hpc := List.pairwise_cons.mp hp
    rcases hm : firstMinBy val xs with _ | m
    · cases xs with
      | cons y ys =>
        have hs := firstMinBy_cons_some val y ys
        rw [hm] at hs
        cases hs
      | nil =>
        have hrx : r = x := by
          simp only [firstMinBy] at hr
          exact (Option.some.inj hr).symm
        subst hrx
        refine ⟨List.mem_cons_self _ _, ?_, ?_⟩
        · intro s hs
          rcases List.mem_cons.mp hs with rfl | hs'
          · exact le_refl _
          · cases hs'
        · intro s hs _
          rcases List.mem_cons.mp hs with rfl | hs'
          · exact strLe_refl _
          · cases hs'
    · have ihm := ih hpc.2 m hm
      simp only [firstMinBy, hm] at hr
      by_cases hc : val m < val x
      · rw [if_pos hc] at hr
        have hrm : r = m := (Option.some.inj hr).symm
        subst hrm
        refine ⟨List.mem_cons_of_mem x ihm.1, ?_, ?_⟩
        · intro s hs
          rcases List.mem_cons.mp hs with rfl | hs'
          · exact le_of_lt hc
          · exact ihm.2.1 s hs'
        · intro s hs hv
          rcases List.mem_cons.mp hs with rfl | hs'
          · exact absurd hv (ne_of_gt hc)
          · exact ihm.2.2 s hs' hv
      · rw [if_neg hc] at hr
        have hrx : r = x := (Option.some.inj hr).symm
        subst hrx
        have hxm : val r ≤ val m := not_lt.mp hc
        refine ⟨List.mem_cons_self _ _, ?_, ?_⟩
        · intro s hs
          rcases List.mem_cons.mp hs with rfl | hs'
          · exact le_refl _
          · exact le_trans hxm (ihm.2.1 s hs')
        · intro s hs _
          rcases List.mem_cons.mp hs with rfl | hs'
          · exact strLe_refl _
          · exact hpc.1 s hs'

/-! ### Sortedness of `groupbySum` output -/

theorem groupbySum_pairwise_keys {K : Type} [DecidableEq K]
    (le : K → K → Bool) [IsTotal K (fun a b => le a b = true)]
    [IsTrans K (fun a b => le a b = true)] (l : List (K × Rat)) :
    (groupbySum le l).Pairwise (fun p q => le p.1 q.1 = true ∧ p.1 ≠ q.1) := by
  unfold groupbySum
  rw [List.pairwise_map]
  have hsorted : List.Sorted (fun a b => le a b = true)
      (List.insertionSort (fun a b => le a b = true) (l.map Prod.fst).dedup) :=
    List.sorted_insertionSort _ _
  have hnd : (List.insertionSort (fun a b => le a b = true)
      (l.map Prod.fst).dedup).Nodup :=
    (List.perm_insertionSort _ _).symm.nodup (List.nodup_dedup _)
  exact List.Pairwise.and hsorted hnd

theorem candGroup_pairwise (l : List Record) (b : String) :
    (candGroup (officer_summary l) b).Pairwise
      (fun p q => strLe p.1.1 q.1.1 = true) := by
  have h2 : (officer_summary l).Pairwise
      (fun p q => pairLe p.1 q.1 = true ∧ p.1 ≠ q.1) :=
    groupbySum_pairwise_keys pairLe _
  have h3 := (h2.filter (fun p => p.1.2 == b)).filter
    (fun p => (bucket_officers b).contains p.1.1)
  rw [candGroup]
  refine List.Pairwise.imp_of_mem ?_ h3
  intro p q hp hq hpq
  have hpb : p.1.2 = b := by
    have hm1 := (List.mem_filter.mp hp).1
    exact beq_iff_eq.mp (List.mem_filter.mp hm1).2
  have hqb : q.1.2 = b := by
    have hm1 := (List.mem_filter.mp hq).1
    exact beq_iff_eq.mp (List.mem_filter.mp hm1).2
  rcases hpq with ⟨hle, hne⟩
  by_cases he : p.1.1 = q.1.1
  · exact absurd (Prod.ext he (hpb.trans hqb.symm)) hne
  · simp only [pairLe, beq_iff_eq, he, if_false] at hle
    exact hle

theorem dashOfficerSummary_pairwise (rows : List (String × Rat))
    (sel : List String) :
    ((dashOfficerSummary rows).filter (fun p => sel.contains p.1)).Pairwise
      (fun p q => strLe p.1 q.1 = true) := by
  have h2 : (dashOfficerSummary rows).Pairwise
      (fun p q => strLe p.1 q.1 = true ∧ p.1 ≠ q.1) :=
    groupbySum_pairwise_keys strLe rows
  exact (h2.filter (fun p => sel.contains p.1)).imp (fun h => h.1)

theorem firstMaxBy_ne_nil {α : Type} (val : α → Rat) (l : List α)
    (h : l ≠ []) : ∃ r, firstMaxBy val l = some r := by
  cases l with
  | nil => exact absurd rfl h
  | cons x xs =>
    have hs := firstMaxBy_cons_some val x xs
    rcases ho : firstMaxBy val (x :: xs) with _ | r
    · rw [ho] at hs
      cases hs
    · exact ⟨r, rfl⟩

theorem firstMinBy_ne_nil {α : Type} (val : α → Rat) (l : List α)
    (h : l ≠ []) : ∃ r, firstMinBy val l = some r := by
  cases l with
  | nil => exact absurd rfl h
  | cons x xs =>
    have hs := firstMinBy_cons_some val x xs
    rcases ho : firstMinBy val (x :: xs) with _ | r
    · rw [ho] at hs
      cases hs
    · exact ⟨r, rfl⟩

/-! ### Claim C9 -/

/-- C9: top/lowest selection is deterministic on ties.  The grouped rows
come out of the groupby sorted ascending by officer name, `idxmax` /
`idxmin` return the first extremal row, and therefore the selected row is
extremal and, among equal totals, has the lexicographically smallest
officer name.  The first part covers `app.py`'s per-bucket selection over
the assigned-officer group, the second the dashboard overview's
`top_officer` / `low_officer` over the officer-filtered summary. -/
theorem tie_break_deterministic :
    (∀ (l : List Record) (b : String),
      candGroup (officer_summary l) b ≠ [] →
      (∃ r, firstMaxBy (fun p => p.2) (candGroup (officer_summary l) b) = some r
        ∧ r ∈ candGroup (officer_summary l) b
        ∧ (∀ s ∈ candGroup (officer_summary l) b, s.2 ≤ r.2)
        ∧ (∀ s ∈ candGroup (officer_summary l) b, s.2 = r.2 →
            strLe r.1.1 s.1.1 = true))
      ∧ (∃ r, firstMinBy (fun p => p.2) (candGroup (officer_summary l) b) = some r
        ∧ r ∈ candGroup (officer_summary l) b
        ∧ (∀ s ∈ candGroup (officer_summary l) b, r.2 ≤ s.2)
        ∧ (∀ s ∈ candGroup (officer_summary l) b, s.2 = r.2 →
            strLe r.1.1 s.1.1 = true))) ∧
    (∀ (rows : List (String × Rat)) (sel : List String),
      (dashOfficerSummary rows).filter (fun p => sel.contains p.1) ≠ [] →
      (∃ r, firstMaxBy Prod.snd
            ((dashOfficerSummary rows).filter (fun p => sel.contains p.1))
            = some r
        ∧ (∀ s ∈ (dashOfficerSummary rows).filter (fun p => sel.contains p.1),
            s.2 ≤ r.2)
        ∧ (∀ s ∈ (dashOfficerSummary rows).filter (fun p => sel.contains p.1),
            s.2 = r.2 → strLe r.1 s.1 = true))
      ∧ (∃ r, firstMinBy Prod.snd
            ((dashOfficerSummary rows).filter (fun p => sel.contains p.1))
            = some r
        ∧ (∀ s ∈ (dashOfficerSummary rows).filter (fun p => sel.contains p.1),
            r.2 ≤ s.2)
        ∧ (∀ s ∈ (dashOfficerSummary rows).filter (fun p => sel.contains p.1),
            s.2 = r.2 → strLe r.1 s.1 = true))) := by
  constructor
  · intro l b h
    constructor
    · obtain ⟨r, hr⟩ := firstMaxBy_ne_nil (fun p => p.2) _ h
      have hspec := firstMaxBy_spec (fun p => p.2) (fun p => p.1.1) _
        (candGroup_pairwise l b) r hr
      exact ⟨r, hr, hspec.1, hspec.2.1, hspec.2.2⟩
    · obtain ⟨r, hr⟩ := firstMinBy_ne_nil (fun p => p.2) _ h
      have hspec := firstMinBy_spec (fun p => p.2) (fun p => p.1.1) _
        (candGroup_pairwise l b) r hr
      exact ⟨r, hr, hspec.1, hspec.2.1, hspec.2.2⟩
  · intro rows sel h
    constructor
    · obtain ⟨r, hr⟩ := firstMaxBy_ne_nil Prod.snd _ h
      have hspec := firstMaxBy_spec Prod.snd Prod.fst _
        (dashOfficerSummary_pairwise rows sel) r hr
      exact ⟨r, hr, hspec.2.1, hspec.2.2⟩
    · obtain ⟨r, hr⟩ := firstMinBy_ne_nil Prod.snd _ h
      have hspec := firstMinBy_spec Prod.snd Prod.fst _
        (dashOfficerSummary_pairwise rows sel) r hr
      exact ⟨r, hr, hspec.2.1, hspec.2.2⟩

/-- Witness for C9 at a concrete one-record input whose officer is
assigned to its bucket, so the candidate group is non-empty. -/
theorem tie_break_deterministic_witness :
    candGroup (officer_summary [⟨"Dennis", "1-30", 5⟩]) "1-30" ≠ []
    ∧ ((∃ r, firstMaxBy (fun p => p.2)
          (candGroup (officer_summary [⟨"Dennis", "1-30", 5⟩]) "1-30") = some r
        ∧ r ∈ candGroup (officer_summary [⟨"Dennis", "1-30", 5⟩]) "1-30"
        ∧ (∀ s ∈ candGroup (officer_summary [⟨"Dennis", "1-30", 5⟩]) "1-30",
            s.2 ≤ r.2)
        ∧ (∀ s ∈ candGroup (officer_summary [⟨"Dennis", "1-30", 5⟩]) "1-30",
            s.2 = r.2 → strLe r.1.1 s.1.1 = true))
      ∧ (∃ r, firstMinBy (fun p => p.2)
          (candGroup (officer_summary [⟨"Dennis", "1-30", 5⟩]) "1-30") = some r
        ∧ r ∈ candGroup (officer_summary [⟨"Dennis", "1-30", 5⟩]) "1-30"
        ∧ (∀ s ∈ candGroup (officer_summary [⟨"Dennis", "1-30", 5⟩]) "1-30",
            r.2 ≤ s.2)
        ∧ (∀ s ∈ candGroup (officer_summary [⟨"Dennis", "1-30", 5⟩]) "1-30",
            s.2 = r.2 → strLe r.1.1 s.1.1 = true))) :=
  ⟨by decide, tie_break_deterministic.1 [⟨"Dennis", "1-30", 5⟩] "1-30" (by decide)⟩
